import Mathlib

/-!
Verification of the pump.fun create-event streamer (`src/main.rs`).

The development shallowly embeds the parts of the program the claims are
about: the pure classifier `process_update` / `is_pump_fun_create`
(src/main.rs lines 184-290), the backoff state machine of
`run_grpc_subscription` (lines 78-95), and the SSE framing of
`sse_handler` (lines 152-178).

Rust data is modelled as follows: byte vectors (`Vec<u8>`) become
`List Nat`, Rust `String`s become `List Char`, `Option` stays `Option`,
protobuf messages become structures holding exactly the fields the
program reads.  `bs58::encode`, `std::str::from_utf8` validation and
`serde_json::to_string` are external library calls; they are embedded by
their documented algorithms (Bitcoin-alphabet base-58, RFC 3629 UTF-8
validity, serde's compact JSON with declaration-order fields).
-/

namespace PumpGeyser

/-- One entry of `pre_token_balances` / `post_token_balances`; the program
only reads the optional `mint` string. -/
structure TokenBalance where
  mint : Option (List Char)
deriving DecidableEq, Repr

/-- The transaction message; the program only reads `account_keys`
(a list of byte vectors). -/
structure Message where
  account_keys : List (List Nat)
deriving DecidableEq, Repr

/-- The embedded `Transaction`: the signature list and the optional
message. -/
structure Transaction where
  signatures : List (List Nat)
  message : Option Message
deriving DecidableEq, Repr

/-- Transaction status metadata: optional raw log bytes and the pre/post
token balance lists. -/
structure TransactionStatusMeta where
  log_messages : Option (List Nat)
  pre_token_balances : List TokenBalance
  post_token_balances : List TokenBalance
deriving DecidableEq, Repr

/-- `SubscribeUpdateTransactionInfo`: direct signature bytes, the optional
embedded transaction and the optional metadata. -/
structure SubscribeUpdateTransactionInfo where
  signature : List Nat
  transaction : Option Transaction
  meta : Option TransactionStatusMeta
deriving DecidableEq, Repr

/-- `SubscribeUpdateTransaction`: the transaction-update variant payload,
with its slot. -/
structure SubscribeUpdateTransaction where
  transaction : Option SubscribeUpdateTransactionInfo
  slot : Nat
deriving DecidableEq, Repr

/-- The `update_oneof` variants: the program only inspects the
`Transaction` variant; every other variant is handled identically by the
wildcard arm, so they are collapsed into one constructor. -/
inductive UpdateOneof where
  | transaction (t : SubscribeUpdateTransaction)
  | other
deriving DecidableEq, Repr

/-- A `SubscribeUpdate` envelope with its optional `update_oneof`. -/
structure SubscribeUpdate where
  update_oneof : Option UpdateOneof
deriving DecidableEq, Repr

/-- The published domain record (`CreateTransaction`, src/main.rs 24-30). -/
structure CreateTransaction where
  signature : List Char
  mint_address : List Char
  creator_address : List Char
  slot : Nat
deriving DecidableEq, Repr

/-- Substring containment over lists, the semantics of Rust's
`str::contains` with a literal pattern (byte-level subslice search). -/
def containsSeq {α : Type} [BEq α] (text pat : List α) : Bool :=
  match text with
  | [] => pat.isEmpty
  | _ :: rest => pat.isPrefixOf text || containsSeq rest pat

/-- Continuation byte of a UTF-8 sequence (`0x80..0xBF`). -/
def isCont (b : Nat) : Bool := 0x80 ≤ b && b ≤ 0xBF

/-- RFC 3629 UTF-8 validity of a byte sequence: the success condition of
`std::str::from_utf8` (src/main.rs 273). -/
def utf8Valid : List Nat → Bool
  | [] => true
  | b :: rest =>
    if b < 0x80 then utf8Valid rest
    else if 0xC2 ≤ b ∧ b ≤ 0xDF then
      match rest with
      | c1 :: rest2 => isCont c1 && utf8Valid rest2
      | [] => false
    else if b = 0xE0 then
      match rest with
      | c1 :: c2 :: rest2 =>
        (0xA0 ≤ c1 && c1 ≤ 0xBF) && (isCont c2 && utf8Valid rest2)
      | _ => false
    else if (0xE1 ≤ b ∧ b ≤ 0xEC) ∨ b = 0xEE ∨ b = 0xEF then
      match rest with
      | c1 :: c2 :: rest2 => isCont c1 && (isCont c2 && utf8Valid rest2)
      | _ => false
    else if b = 0xED then
      match rest with
      | c1 :: c2 :: rest2 =>
        (0x80 ≤ c1 && c1 ≤ 0x9F) && (isCont c2 && utf8Valid rest2)
      | _ => false
    else if b = 0xF0 then
      match rest with
      | c1 :: c2 :: c3 :: rest2 =>
        (0x90 ≤ c1 && c1 ≤ 0xBF) && (isCont c2 && (isCont c3 && utf8Valid rest2))
      | _ => false
    else if 0xF1 ≤ b ∧ b ≤ 0xF3 then
      match rest with
      | c1 :: c2 :: c3 :: rest2 =>
        isCont c1 && (isCont c2 && (isCont c3 && utf8Valid rest2))
      | _ => false
    else if b = 0xF4 then
      match rest with
      | c1 :: c2 :: c3 :: rest2 =>
        (0x80 ≤ c1 && c1 ≤ 0x8F) && (isCont c2 && (isCont c3 && utf8Valid rest2))
      | _ => false
    else false

/-- ASCII byte rendering of a literal pattern string (all patterns the
program searches for are ASCII). -/
def asciiBytes (s : String) : List Nat := s.toList.map Char.toNat

/-- The pump.fun program address literal (src/main.rs 106, 266). -/
def pumpFunProgramId : String := "6EF8rrecthR5Dkzon8Nwu78hRvfCKubJ14M5uBEwF6P"

/-- `has_pump_fun` of src/main.rs 278: the program address occurs in the
log text. -/
def hasPumpFun (logs : List Nat) : Bool :=
  containsSeq logs (asciiBytes pumpFunProgramId)

/-- `is_create` of src/main.rs 279: the plain create marker occurs and the
string "CreateV2" does not. -/
def isCreateBranch (logs : List Nat) : Bool :=
  containsSeq logs (asciiBytes "Instruction: Create") &&
    !(containsSeq logs (asciiBytes "CreateV2"))

/-- `is_create_v2` of src/main.rs 280: the V2 marker occurs. -/
def isCreateV2Branch (logs : List Nat) : Bool :=
  containsSeq logs (asciiBytes "Instruction: CreateV2")

/-- `is_pump_fun_create` (src/main.rs 265-290). -/
def is_pump_fun_create (tx_info : SubscribeUpdateTransaction) : Bool :=
  match tx_info.transaction with
  | some tx =>
    match tx.meta with
    | some meta =>
      match meta.log_messages with
      | some log_bytes =>
        if utf8Valid log_bytes then
          hasPumpFun log_bytes &&
            (isCreateBranch log_bytes || isCreateV2Branch log_bytes)
        else false
      | none => false
    | none => false
  | none => false

/-- The Bitcoin base-58 alphabet used by the `bs58` crate's default
encoder. -/
def base58Alphabet : List Char :=
  "123456789ABCDEFGHJKLMNPQRSTUVWXYZabcdefghijkmnopqrstuvwxyz".toList

/-- Big-endian byte-vector value. -/
def bytesToNat (bs : List Nat) : Nat :=
  bs.foldl (fun acc b => acc * 256 + b) 0

/-- Base-58 digits of a number, most significant first; the first argument
is fuel (`n / 58 < n` for positive `n`, so fuel `n` suffices). -/
def natToB58Go : Nat → Nat → List Char
  | _, 0 => []
  | 0, _ + 1 => []
  | fuel + 1, n + 1 =>
    natToB58Go fuel ((n + 1) / 58) ++ [base58Alphabet.getD ((n + 1) % 58) '1']

/-- Base-58 digits of a number (empty for zero). -/
def natToB58 (n : Nat) : List Char := natToB58Go n n

/-- `bs58::encode(bytes).into_string()`: one '1' per leading zero byte,
then the base-58 digits of the remaining big-endian value. -/
def bs58Encode (bs : List Nat) : List Char :=
  List.replicate ((bs.takeWhile (fun b => b == 0)).length) '1' ++
    natToB58 (bytesToNat bs)

/-- A string is valid base-58 text when every character is in the
alphabet. -/
def isB58 (s : List Char) : Bool := s.all (fun c => base58Alphabet.contains c)

/-- The 32-character all-'1' string the mint filter searches for
(src/main.rs 234). -/
def onesStr : List Char := "11111111111111111111111111111111".toList

/-- The body of the candidate loop (src/main.rs 232-238): keep a
post-balance entry's mint when it is not in the pre-balance mint set and
does not contain the all-'1' substring. -/
def candKeep (preMints : List (List Char)) (b : TokenBalance) :
    Option (List Char) :=
  match b.mint with
  | some mint =>
    if !(preMints.contains mint) && !(containsSeq mint onesStr) then
      some mint
    else none
  | none => none

/-- The candidate-mint list (src/main.rs 227-238), in post-list order. -/
def candidateMints (pre post : List TokenBalance) : List (List Char) :=
  post.filterMap (candKeep (pre.filterMap (fun b => b.mint)))

/-- Suffix test `m.ends_with("pump")` (src/main.rs 241). -/
def pumpSuf (m : List Char) : Bool := "pump".toList.isSuffixOf m

/-- The mint selection (src/main.rs 240-243): first candidate ending in
"pump", else the first candidate. -/
def selectMint (pre post : List TokenBalance) : Option (List Char) :=
  ((candidateMints pre post).find? pumpSuf).orElse
    (fun _ => (candidateMints pre post).head?)

/-- Signature extraction (src/main.rs 195-205): the direct signature field
if non-empty, else the first embedded signature. -/
def extractSignature (tx : SubscribeUpdateTransactionInfo) :
    Option (List Char) :=
  if !tx.signature.isEmpty then some (bs58Encode tx.signature)
  else
    match tx.transaction with
    | some tx_data =>
      match tx_data.signatures.head? with
      | some first_sig => some (bs58Encode first_sig)
      | none => none
    | none => none

/-- Creator extraction (src/main.rs 208-220): the first account key of the
message. -/
def extractCreator (tx : SubscribeUpdateTransactionInfo) :
    Option (List Char) :=
  match tx.transaction with
  | some tx_data =>
    match tx_data.message with
    | some message =>
      match message.account_keys.head? with
      | some first_key => some (bs58Encode first_key)
      | none => none
    | none => none
  | none => none

/-- Mint extraction (src/main.rs 223-246): `selectMint` over the metadata
balance lists. -/
def extractMint (tx : SubscribeUpdateTransactionInfo) : Option (List Char) :=
  match tx.meta with
  | some meta => selectMint meta.pre_token_balances meta.post_token_balances
  | none => none

/-- `process_update` (src/main.rs 184-263). -/
def process_update (update : SubscribeUpdate) : Option CreateTransaction :=
  match update.update_oneof with
  | some (UpdateOneof.transaction tx_info) =>
    if is_pump_fun_create tx_info = false then none
    else
      match tx_info.transaction with
      | some tx =>
        match extractSignature tx with
        | none => none
        | some signature =>
          match extractCreator tx with
          | none => none
          | some creator_address =>
            match extractMint tx with
            | none => none
            | some mint =>
              some { signature := signature, mint_address := mint,
                     creator_address := creator_address, slot := tx_info.slot }
      | none => none
  | some UpdateOneof.other => none
  | none => none

/-- The log bytes reachable from a transaction update, when every optional
layer is present. -/
def transactionLogs (t : SubscribeUpdateTransaction) : Option (List Nat) :=
  t.transaction.bind (fun tx => tx.meta.bind (fun meta => meta.log_messages))

/-! ### The StreamSupervisor backoff state machine (src/main.rs 78-95) -/

/-- On a clean close (`subscribe_once` returning `Ok`) the backoff is reset
to 1 second (src/main.rs 85); on an error it is kept. -/
def backoffReset (b : Nat) (ok : Bool) : Nat := if ok then 1 else b

/-- After sleeping, the backoff is doubled and capped at 30 seconds
(src/main.rs 93). -/
def backoffNext (b : Nat) : Nat := min (b * 2) 30

/-- The successive sleep durations (in seconds) of the reconnect loop
starting from backoff `b`, for a given sequence of `subscribe_once`
outcomes (`true` = clean close, `false` = failure).  Each iteration first
applies the reset rule, sleeps the resulting backoff, then doubles and
caps it (src/main.rs 82-94). -/
def runDelays (b : Nat) : List Bool → List Nat
  | [] => []
  | ok :: rest =>
    backoffReset b ok :: runDelays (backoffNext (backoffReset b ok)) rest

/-! ### The SSE frame rendering (src/main.rs 152-178)

The handler serializes each received `CreateTransaction` with
`serde_json::to_string` and frames it as `data: <json>\n\n`.  The JSON
serializer is an external library; it is embedded by its documented
output: a compact object whose keys are the struct's fields in
declaration order, strings escaped with `"`, `\`, `\b`, `\t`, `\n`,
`\f`, `\r` and `\u00XX` for other control characters, and `u64` rendered
as a bare decimal number. -/

/-- Lowercase hexadecimal digit. -/
def hexDigit (n : Nat) : Char := "0123456789abcdef".toList.getD n '0'

/-- serde_json's escaping of one character inside a JSON string. -/
def jsonEscapeChar (c : Char) : List Char :=
  if c = '"' then ['\\', '"']
  else if c = '\\' then ['\\', '\\']
  else if c = '\x08' then ['\\', 'b']
  else if c = '\x09' then ['\\', 't']
  else if c = '\x0a' then ['\\', 'n']
  else if c = '\x0c' then ['\\', 'f']
  else if c = '\x0d' then ['\\', 'r']
  else if c.toNat < 0x20 then
    ['\\', 'u', '0', '0', hexDigit (c.toNat / 16), hexDigit (c.toNat % 16)]
  else [c]

/-- A JSON string literal: quoted, characters escaped. -/
def jsonString (s : List Char) : List Char :=
  '"' :: (s.flatMap jsonEscapeChar ++ ['"'])

/-- Decimal digit. -/
def decDigit (n : Nat) : Char := "0123456789".toList.getD n '0'

/-- Decimal digits of a number, most significant first; the first argument
is fuel (`n / 10 < n` for positive `n`, so fuel `n` suffices). -/
def natDecGo : Nat → Nat → List Char
  | _, 0 => []
  | 0, _ + 1 => []
  | fuel + 1, n + 1 =>
    natDecGo fuel ((n + 1) / 10) ++ [decDigit ((n + 1) % 10)]

/-- Decimal rendering of a natural number, as serde_json renders a `u64`. -/
def natDecimal (n : Nat) : List Char :=
  if n = 0 then ['0'] else natDecGo n n

/-- `serde_json::to_string(&create_tx)` (src/main.rs 162): the fields of
`CreateTransaction` in declaration order, slot as a bare number. -/
def serializeCreateTransaction (ev : CreateTransaction) : List Char :=
  "\x7b\"signature\":".toList ++ jsonString ev.signature ++
  ",\"mint_address\":".toList ++ jsonString ev.mint_address ++
  ",\"creator_address\":".toList ++ jsonString ev.creator_address ++
  ",\"slot\":".toList ++ natDecimal ev.slot ++ "\x7d".toList

/-- The SSE frame `format!("data: \x7b\x7d\n\n", json)` (src/main.rs 163). -/
def sseFrame (ev : CreateTransaction) : List Char :=
  "data: ".toList ++ serializeCreateTransaction ev ++ "\n\n".toList

/-- The three headers set on the `/events` response (src/main.rs 173-175). -/
def sseHeaders : List (String × String) :=
  [("Content-Type", "text/event-stream"),
   ("Cache-Control", "no-cache"),
   ("Connection", "keep-alive")]

/-! ### Spec-side definitions and concrete inputs used by the claims -/

/-- Modelled from the spec wording of claim C1: the candidate mints are
the post-list mints "new relative to the pre-list", with no further
filtering. -/
def specNewMints (pre post : List TokenBalance) : List (List Char) :=
  post.filterMap (fun b => b.mint.bind (fun m =>
    if (pre.filterMap (fun b => b.mint)).contains m then none else some m))

/-- Modelled from the spec wording of claim C1: among the new mints, the
first ending in "pump", else the first in encounter order. -/
def specSelectMint (pre post : List TokenBalance) : Option (List Char) :=
  ((specNewMints pre post).find? pumpSuf).orElse
    (fun _ => (specNewMints pre post).head?)

/-- A mint that is not the system-program placeholder but contains the
32-character all-'1' string as a proper substring. -/
def trickyMint : List Char := 'a' :: onesStr

/-- C1 counterexample input: both post mints are new; neither ends in
"pump". -/
def postC1 : List TokenBalance := [{ mint := some trickyMint }, { mint := some ['b'] }]

/-- C2 counterexample input: a single new post mint containing the all-'1'
substring. -/
def postC2 : List TokenBalance := [{ mint := some trickyMint }]

/-- Log bytes containing the program address and a plain create marker. -/
def logsCreate : List Nat :=
  asciiBytes
    "Program 6EF8rrecthR5Dkzon8Nwu78hRvfCKubJ14M5uBEwF6P invoke [1] Program log: Instruction: Create"

/-- Log bytes containing the program address and the V2 create marker. -/
def logsCreateV2 : List Nat :=
  asciiBytes
    "Program 6EF8rrecthR5Dkzon8Nwu78hRvfCKubJ14M5uBEwF6P invoke [1] Program log: Instruction: CreateV2"

/-- Transaction update whose logs carry both the plain marker (as a
substring of the V2 marker) and the V2 marker. -/
def tC3 : SubscribeUpdateTransaction :=
  { slot := 11
    transaction := some
      { signature := [1]
        transaction := some { signatures := [], message := some { account_keys := [[2]] } }
        meta := some
          { log_messages := some logsCreateV2
            pre_token_balances := []
            post_token_balances := [{ mint := some "abcpump".toList }] } } }

/-- A well-formed create update: direct signature bytes, one account key,
an empty pre-balance list and one new post mint. -/
def txC5 : SubscribeUpdateTransactionInfo :=
  { signature := [1, 2, 3]
    transaction := some { signatures := [], message := some { account_keys := [[4, 5]] } }
    meta := some
      { log_messages := some logsCreate
        pre_token_balances := []
        post_token_balances := [{ mint := some "abcpump".toList }] } }

/-- The transaction update wrapping `txC5`. -/
def tC5 : SubscribeUpdateTransaction := { slot := 7, transaction := some txC5 }

/-- The update envelope wrapping `tC5`. -/
def uC5 : SubscribeUpdate :=
  { update_oneof := some (UpdateOneof.transaction tC5) }

/-- A degenerate create update: empty direct signature with an empty first
embedded signature, an empty first account key, and a mint that is not
base-58 text. -/
def uC6 : SubscribeUpdate :=
  { update_oneof := some (UpdateOneof.transaction
      { slot := 42
        transaction := some
          { signature := []
            transaction := some { signatures := [[]], message := some { account_keys := [[]] } }
            meta := some
              { log_messages := some logsCreate
                pre_token_balances := []
                post_token_balances := [{ mint := some ['0'] }] } } }) }

/-- A create-looking update in which every post mint already occurs in the
pre-balance list. -/
def txC7 : SubscribeUpdateTransactionInfo :=
  { signature := [9]
    transaction := some { signatures := [], message := some { account_keys := [[8]] } }
    meta := some
      { log_messages := some logsCreate
        pre_token_balances := [{ mint := some ['x'] }]
        post_token_balances := [{ mint := some ['x'] }] } }

/-- The transaction update wrapping `txC7`. -/
def tC7 : SubscribeUpdateTransaction := { slot := 3, transaction := some txC7 }

/-- The update envelope wrapping `tC7`. -/
def uC7 : SubscribeUpdate :=
  { update_oneof := some (UpdateOneof.transaction tC7) }

/-- An update whose logs carry a create marker but not the program
address. -/
def tC8a : SubscribeUpdateTransaction :=
  { slot := 1
    transaction := some
      { signature := [1]
        transaction := some { signatures := [], message := some { account_keys := [[2]] } }
        meta := some
          { log_messages := some (asciiBytes "Program log: Instruction: Create")
            pre_token_balances := []
            post_token_balances := [{ mint := some "abcpump".toList }] } } }

/-- The update envelope wrapping `tC8a`. -/
def uC8a : SubscribeUpdate :=
  { update_oneof := some (UpdateOneof.transaction tC8a) }

/-- An update whose log bytes are not valid UTF-8. -/
def tC8b : SubscribeUpdateTransaction :=
  { slot := 2
    transaction := some
      { signature := [1]
        transaction := some { signatures := [], message := some { account_keys := [[2]] } }
        meta := some
          { log_messages := some [0xFF, 0xFE]
            pre_token_balances := []
            post_token_balances := [{ mint := some "abcpump".toList }] } } }

/-- The update envelope wrapping `tC8b`. -/
def uC8b : SubscribeUpdate :=
  { update_oneof := some (UpdateOneof.transaction tC8b) }

/-- A small event used to exercise the SSE serializer. -/
def evC9 : CreateTransaction :=
  { signature := "ab".toList, mint_address := "cd".toList,
    creator_address := "ef".toList, slot := 3 }

/-! ### Helper lemmas -/

theorem containsSeq_correct {α : Type} [BEq α] [LawfulBEq α]
    (text pat : List α) : containsSeq text pat = true ↔ pat <:+: text := by
  induction text with
  | nil => simp [containsSeq, List.isEmpty_iff, List.infix_nil]
  | cons x rest ih =>
    simp only [containsSeq, Bool.or_eq_true, List.isPrefixOf_iff_prefix, ih,
      List.infix_cons_iff]

theorem containsSeq_trans {α : Type} [BEq α] [LawfulBEq α]
    {text p q : List α} (h1 : containsSeq text p = true)
    (h2 : containsSeq p q = true) : containsSeq text q = true := by
  rw [containsSeq_correct] at h1 h2 ⊢
  exact h2.trans h1

theorem find?_decomp {α : Type} (p : α → Bool) (l : List α) (a : α)
    (h : l.find? p = some a) :
    ∃ l₁ l₂, l = l₁ ++ a :: l₂ ∧ (∀ x ∈ l₁, p x = false) ∧ p a = true := by
  induction l with
  | nil => simp [List.find?] at h
  | cons x rest ih =>
    by_cases hx : p x = true
    · rw [List.find?_cons_of_pos _ hx] at h
      obtain rfl : x = a := by injection h
      exact ⟨[], rest, rfl, by simp, hx⟩
    · rw [List.find?_cons_of_neg _ hx] at h
      obtain ⟨l₁, l₂, hl, hall, ha⟩ := ih h
      refine ⟨x :: l₁, l₂, by simp [hl], ?_, ha⟩
      intro y hy
      rcases List.mem_cons.mp hy with rfl | hy'
      · exact Bool.not_eq_true _ ▸ by simpa using hx
      · exact hall y hy'

theorem base58Alphabet_getD_mem (i : Nat) :
    base58Alphabet.getD (i % 58) '1' ∈ base58Alphabet := by
  have h58 : i % 58 < 58 := Nat.mod_lt _ (by norm_num)
  have hb : ∀ j, j < 58 → base58Alphabet.getD j '1' ∈ base58Alphabet := by
    decide
  exact hb _ h58

theorem natToB58Go_mem : ∀ fuel n : Nat, ∀ c ∈ natToB58Go fuel n,
    c ∈ base58Alphabet := by
  intro fuel
  induction fuel with
  | zero => intro n c hc; cases n <;> simp [natToB58Go] at hc
  | succ f ih =>
    intro n c hc
    cases n with
    | zero => simp [natToB58Go] at hc
    | succ m =>
      simp only [natToB58Go, List.mem_append, List.mem_singleton] at hc
      rcases hc with h | h
      · exact ih _ _ h
      · rw [h]; exact base58Alphabet_getD_mem _

theorem bs58Encode_valid (bs : List Nat) : isB58 (bs58Encode bs) = true := by
  simp only [isB58, bs58Encode, List.all_eq_true, List.mem_append]
  intro c hc
  have hmem : c ∈ base58Alphabet := by
    rcases hc with h | h
    · rw [List.eq_of_mem_replicate h]; decide
    · exact natToB58Go_mem _ _ _ h
  simpa [List.contains, List.elem_iff] using hmem

theorem foldl_byte_ge (l : List Nat) : ∀ a : Nat,
    a ≤ l.foldl (fun acc b => acc * 256 + b) a := by
  induction l with
  | nil => intro a; simp
  | cons x xs ih =>
    intro a
    have h1 : a ≤ a * 256 + x := by omega
    exact le_trans h1 (ih _)

theorem natToB58_ne_nil {n : Nat} (h : n ≠ 0) : natToB58 n ≠ [] := by
  obtain ⟨m, rfl⟩ := Nat.exists_eq_succ_of_ne_zero h
  simp [natToB58, natToB58Go]

theorem bs58Encode_eq_nil_iff (bs : List Nat) : bs58Encode bs = [] ↔ bs = [] := by
  constructor
  · intro h
    cases bs with
    | nil => rfl
    | cons b rest =>
      exfalso
      rcases List.append_eq_nil.mp h with ⟨h1, h2⟩
      by_cases hb : b = 0
      · subst hb
        simp [List.takeWhile] at h1
      · have hpos : 0 < bytesToNat (b :: rest) := by
          have : b ≤ bytesToNat (b :: rest) := by
            simpa [bytesToNat] using foldl_byte_ge rest b
          omega
        exact natToB58_ne_nil (Nat.pos_iff_ne_zero.mp hpos) h2
  · intro h; subst h; rfl

theorem contains_eq_false_iff {α : Type} [BEq α] [LawfulBEq α]
    (l : List α) (a : α) : l.contains a = false ↔ a ∉ l := by
  constructor
  · intro h hmem
    have h2 : l.contains a = true := List.elem_iff.mpr hmem
    rw [h] at h2
    exact Bool.false_ne_true h2
  · intro h
    cases he : l.elem a with
    | false => exact he
    | true => exact absurd (List.elem_iff.mp he) h

theorem candKeep_eq_some (pm : List (List Char)) (b : TokenBalance)
    (m : List Char) :
    candKeep pm b = some m ↔
      b.mint = some m ∧ pm.contains m = false ∧
        containsSeq m onesStr = false := by
  rcases hmint : b.mint with _ | mint
  · simp [candKeep, hmint]
  · simp only [candKeep, hmint]
    by_cases h1 : pm.contains mint = false ∧ containsSeq mint onesStr = false
    · rw [if_pos (by rw [h1.1, h1.2]; rfl)]
      constructor
      · intro h
        injection h with h
        subst h
        exact ⟨rfl, h1.1, h1.2⟩
      · rintro ⟨hm, h2, h3⟩
        injection hm with hm
        rw [hm]
    · rw [if_neg (fun hc => by
        simp only [Bool.and_eq_true, Bool.not_eq_true'] at hc
        exact h1 hc)]
      constructor
      · intro h; exact absurd h (by simp)
      · rintro ⟨hm, h2, h3⟩
        injection hm with hm
        subst hm
        exact absurd ⟨h2, h3⟩ h1

theorem mem_candidateMints (pre post : List TokenBalance) (m : List Char) :
    m ∈ candidateMints pre post ↔
      (∃ b ∈ post, b.mint = some m) ∧
      m ∉ pre.filterMap (fun b => b.mint) ∧ containsSeq m onesStr = false := by
  rw [candidateMints, List.mem_filterMap]
  constructor
  · rintro ⟨b, hb, hf⟩
    obtain ⟨h1, h2, h3⟩ := (candKeep_eq_some _ _ _).mp hf
    exact ⟨⟨b, hb, h1⟩, (contains_eq_false_iff _ _).mp h2, h3⟩
  · rintro ⟨⟨b, hb, hmint⟩, hpre, hones⟩
    exact ⟨b, hb, (candKeep_eq_some _ _ _).mpr
      ⟨hmint, (contains_eq_false_iff _ _).mpr hpre, hones⟩⟩

theorem selectMint_some_mem {pre post : List TokenBalance} {m : List Char}
    (h : selectMint pre post = some m) : m ∈ candidateMints pre post := by
  rw [selectMint] at h
  rcases hf : (candidateMints pre post).find? pumpSuf with _ | a
  · rw [hf] at h
    have hh : (candidateMints pre post).head? = some m := h
    exact List.mem_of_mem_head? hh
  · rw [hf] at h
    obtain rfl : a = m := by injection h
    exact List.mem_of_find?_eq_some hf

theorem selectMint_eq_none_iff (pre post : List TokenBalance) :
    selectMint pre post = none ↔ candidateMints pre post = [] := by
  rw [selectMint]
  rcases hc : candidateMints pre post with _ | ⟨c, cs⟩
  · simp [List.find?, Option.orElse]
  · constructor
    · intro h
      exfalso
      rcases hf : (c :: cs).find? pumpSuf with _ | a
      · rw [hf] at h
        simp [Option.orElse] at h
      · rw [hf] at h
        simp [Option.orElse] at h
    · intro h
      exact absurd h (List.cons_ne_nil c cs)

theorem extractSignature_inv (tx : SubscribeUpdateTransactionInfo)
    (s : List Char) (h : extractSignature tx = some s) :
    (tx.signature ≠ [] ∧ s = bs58Encode tx.signature) ∨
    (tx.signature = [] ∧ ∃ txd s0 ss, tx.transaction = some txd ∧
      txd.signatures = s0 :: ss ∧ s = bs58Encode s0) := by
  rcases hsig : tx.signature with _ | ⟨b, bs⟩
  · rcases htx : tx.transaction with _ | txd
    · simp [extractSignature, hsig, htx] at h
    · rcases hs : txd.signatures with _ | ⟨s0, ss⟩
      · simp [extractSignature, hsig, htx, hs] at h
      · simp [extractSignature, hsig, htx, hs] at h
        subst h
        exact Or.inr ⟨rfl, txd, s0, ss, rfl, hs, rfl⟩
  · simp [extractSignature, hsig] at h
    subst h
    exact Or.inl ⟨List.cons_ne_nil b bs, rfl⟩

theorem extractCreator_inv (tx : SubscribeUpdateTransactionInfo)
    (c : List Char) (h : extractCreator tx = some c) :
    ∃ txd msg k0 ks, tx.transaction = some txd ∧ txd.message = some msg ∧
      msg.account_keys = k0 :: ks ∧ c = bs58Encode k0 := by
  rcases htx : tx.transaction with _ | txd
  · simp [extractCreator, htx] at h
  · rcases hmsg : txd.message with _ | msg
    · simp [extractCreator, htx, hmsg] at h
    · rcases hk : msg.account_keys with _ | ⟨k0, ks⟩
      · simp [extractCreator, htx, hmsg, hk] at h
      · simp [extractCreator, htx, hmsg, hk] at h
        subst h
        exact ⟨txd, msg, k0, ks, rfl, hmsg, hk, rfl⟩

theorem extractMint_inv (tx : SubscribeUpdateTransactionInfo)
    (m : List Char) (h : extractMint tx = some m) :
    ∃ meta, tx.meta = some meta ∧
      selectMint meta.pre_token_balances meta.post_token_balances = some m := by
  rcases hm : tx.meta with _ | meta
  · simp [extractMint, hm] at h
  · rw [extractMint, hm] at h
    exact ⟨meta, rfl, h⟩

theorem processUpdate_inv (u : SubscribeUpdate) (ev : CreateTransaction)
    (h : process_update u = some ev) :
    ∃ t tx, u.update_oneof = some (UpdateOneof.transaction t) ∧
      is_pump_fun_create t = true ∧ t.transaction = some tx ∧
      extractSignature tx = some ev.signature ∧
      extractCreator tx = some ev.creator_address ∧
      extractMint tx = some ev.mint_address ∧ ev.slot = t.slot := by
  obtain ⟨uo⟩ := u
  rcases uo with _ | v
  · simp [process_update] at h
  rcases v with t | _
  · by_cases hc : is_pump_fun_create t = true
    · rcases ht : t.transaction with _ | tx
      · simp [process_update, hc, ht] at h
      rcases hs : extractSignature tx with _ | s
      · simp [process_update, hc, ht, hs] at h
      rcases hcr : extractCreator tx with _ | cr
      · simp [process_update, hc, ht, hs, hcr] at h
      rcases hm : extractMint tx with _ | m
      · simp [process_update, hc, ht, hs, hcr, hm] at h
      · simp only [process_update, hc, Bool.true_eq_false, if_false, ht, hs,
          hcr, hm, Option.some.injEq] at h
        subst h
        exact ⟨t, tx, rfl, hc, ht, hs, hcr, hm, rfl⟩
    · have hcf : is_pump_fun_create t = false := by
        cases hcv : is_pump_fun_create t
        · rfl
        · exact absurd hcv hc
      simp [process_update, hcf] at h
  · simp [process_update] at h

theorem processUpdate_none_of_not_create (u : SubscribeUpdate)
    (t : SubscribeUpdateTransaction)
    (hu : u.update_oneof = some (UpdateOneof.transaction t))
    (h : is_pump_fun_create t = false) : process_update u = none := by
  rw [process_update, hu]
  simp [h]

theorem processUpdate_none_of_sig_none (u : SubscribeUpdate)
    (t : SubscribeUpdateTransaction) (tx : SubscribeUpdateTransactionInfo)
    (hu : u.update_oneof = some (UpdateOneof.transaction t))
    (ht : t.transaction = some tx) (h : extractSignature tx = none) :
    process_update u = none := by
  rw [process_update, hu]
  by_cases hc : is_pump_fun_create t = false
  · simp [hc]
  · simp [hc, ht, h]

theorem processUpdate_none_of_mint_none (u : SubscribeUpdate)
    (t : SubscribeUpdateTransaction) (tx : SubscribeUpdateTransactionInfo)
    (hu : u.update_oneof = some (UpdateOneof.transaction t))
    (ht : t.transaction = some tx) (h : extractMint tx = none) :
    process_update u = none := by
  rw [process_update, hu]
  by_cases hc : is_pump_fun_create t = false
  · simp [hc]
  · rcases hs : extractSignature tx with _ | s
    · simp [hc, ht, hs]
    · rcases hcr : extractCreator tx with _ | cr
      · simp [hc, ht, hs, hcr]
      · simp [hc, ht, hs, hcr, h]

theorem min_double_cap (a : Nat) : min (min a 30 * 2) 30 = min (a * 2) 30 := by
  omega

theorem runDelays_fail_pow (n : Nat) : ∀ a : Nat,
    runDelays (min a 30) (List.replicate n false) =
      (List.range n).map (fun k => min (a * 2 ^ k) 30) := by
  induction n with
  | zero => intro a; simp [runDelays]
  | succ m ih =>
    intro a
    rw [List.replicate_succ]
    simp only [runDelays, backoffReset, if_neg (Bool.false_ne_true), backoffNext]
    rw [min_double_cap, ih (a * 2), List.range_succ_eq_map, List.map_cons,
      List.map_map]
    refine congrArg₂ List.cons (by simp) ?_
    apply List.map_congr_left
    intro k _
    simp only [Function.comp_apply, pow_succ]
    congr 1
    ring

theorem transactionLogs_inv (t : SubscribeUpdateTransaction) (logs : List Nat)
    (h : transactionLogs t = some logs) :
    ∃ tx meta, t.transaction = some tx ∧ tx.meta = some meta ∧
      meta.log_messages = some logs := by
  rcases htx : t.transaction with _ | tx
  · simp [transactionLogs, htx] at h
  · rcases hmeta : tx.meta with _ | meta
    · simp [transactionLogs, htx, hmeta] at h
    · rcases hlm : meta.log_messages with _ | lb
      · simp [transactionLogs, htx, hmeta, hlm] at h
      · have hlb : lb = logs := by
          simpa [transactionLogs, htx, hmeta, hlm] using h
        subst hlb
        exact ⟨tx, meta, rfl, hmeta, hlm⟩

/-! ### Claim theorems -/

/-- C4: over any run of consecutive failures starting from the initial
state, the reconnect delays are `min (2 ^ k) 30` seconds — that is
1s, 2s, 4s, 8s, 16s, 30s, 30s, …; a clean stream close resets the delay
slept before the next attempt to 1s, and a failure run following a clean
close again sleeps 1s, 2s, 4s, …, capped at 30s. -/
theorem backoff_delay_sequence :
    (∀ n : Nat, runDelays 1 (List.replicate n false) =
      (List.range n).map (fun k => min (2 ^ k) 30)) ∧
    runDelays 1 (List.replicate 7 false) = [1, 2, 4, 8, 16, 30, 30] ∧
    (∀ (b : Nat) (rest : List Bool),
      (runDelays b (true :: rest)).head? = some 1) ∧
    (∀ b n : Nat, runDelays b (true :: List.replicate n false) =
      (List.range (n + 1)).map (fun k => min (2 ^ k) 30)) := by
  refine ⟨?_, by decide, ?_, ?_⟩
  · intro n
    have h := runDelays_fail_pow n 1
    rw [show min 1 30 = 1 from by omega] at h
    rw [h]
    apply List.map_congr_left
    intro k _
    rw [one_mul]
  · intro b rest
    simp [runDelays, backoffReset]
  · intro b n
    have h := runDelays_fail_pow n 2
    simp only [runDelays, backoffReset, if_pos, backoffNext, one_mul]
    rw [h, List.range_succ_eq_map, List.map_cons, List.map_map]
    refine congrArg₂ List.cons (by norm_num) ?_
    apply List.map_congr_left
    intro k _
    simp only [Function.comp_apply, pow_succ]
    congr 1
    ring

/-- C1 counterexample: with an empty pre-list and post mints
`['a1…1', 'b']` (both new, neither pump-suffixed), the claim's rule —
candidates are simply the new post mints, and with no pump suffix the
first candidate in encounter order is chosen — selects `'a1…1'`, but the
code selects `'b'`: its candidate filter additionally drops any mint
containing the 32-character all-'1' substring. -/
theorem mint_selection_cex :
    specSelectMint [] postC1 = some trickyMint ∧
    selectMint [] postC1 = some ['b'] ∧
    trickyMint ∉ ([] : List TokenBalance).filterMap (fun b => b.mint) ∧
    trickyMint ≠ ['b'] := by decide

/-- C1 amended: mint extraction never selects a mint present in the
pre-list; among the candidates — the post-list mints that are new
relative to the pre-list AND do not contain the 32-character all-'1'
substring — it selects the first one ending in "pump" when one exists,
otherwise the first candidate in post-list encounter order. -/
theorem mint_selection (pre post : List TokenBalance) :
    (∀ m, selectMint pre post = some m →
      m ∈ candidateMints pre post ∧ m ∉ pre.filterMap (fun b => b.mint)) ∧
    ((∃ c ∈ candidateMints pre post, pumpSuf c = true) →
      ∃ l₁ m l₂, candidateMints pre post = l₁ ++ m :: l₂ ∧
        pumpSuf m = true ∧ (∀ x ∈ l₁, pumpSuf x = false) ∧
        selectMint pre post = some m) ∧
    ((∀ c ∈ candidateMints pre post, pumpSuf c = false) →
      selectMint pre post = (candidateMints pre post).head?) := by
  refine ⟨?_, ?_, ?_⟩
  · intro m h
    have hmem := selectMint_some_mem h
    exact ⟨hmem, ((mem_candidateMints pre post m).mp hmem).2.1⟩
  · rintro ⟨c, hc, hpc⟩
    rcases hf : (candidateMints pre post).find? pumpSuf with _ | a
    · exact absurd hpc (by simpa using List.find?_eq_none.mp hf c hc)
    · obtain ⟨l₁, l₂, hl, hall, ha⟩ := find?_decomp _ _ _ hf
      exact ⟨l₁, a, l₂, hl, ha, hall, by rw [selectMint, hf]; rfl⟩
  · intro hall
    have hf : (candidateMints pre post).find? pumpSuf = none :=
      List.find?_eq_none.mpr (fun x hx => by simp [hall x hx])
    rw [selectMint, hf]
    rfl

/-- Witness for the amended C1: with candidates `["aaa", "abcpump"]` the
pump-suffixed one is selected even though it comes second. -/
theorem mint_selection_witness :
    (∃ c ∈ candidateMints [] [{ mint := some "aaa".toList },
        { mint := some "abcpump".toList }], pumpSuf c = true) ∧
    ∃ l₁ m l₂, candidateMints [] [{ mint := some "aaa".toList },
        { mint := some "abcpump".toList }] = l₁ ++ m :: l₂ ∧
      pumpSuf m = true ∧ (∀ x ∈ l₁, pumpSuf x = false) ∧
      selectMint [] [{ mint := some "aaa".toList },
        { mint := some "abcpump".toList }] = some m :=
  ⟨by decide, (mint_selection [] _).2.1 (by decide)⟩

/-- C2 counterexample: the post entry's mint `'a1…1'` is absent from the
(empty) pre set and is not the all-'1' placeholder address, yet it is not
a candidate: the code excludes any mint that merely CONTAINS the all-'1'
string as a substring. -/
theorem candidate_iff_cex :
    trickyMint ∉ ([] : List TokenBalance).filterMap (fun b => b.mint) ∧
    trickyMint ≠ onesStr ∧
    (∃ b ∈ postC2, b.mint = some trickyMint) ∧
    candidateMints [] postC2 = [] := by decide

/-- C2 amended: a post entry's mint is a candidate iff it carries a mint
that is absent from the pre-execution mint set and does not contain the
32-character all-'1' substring. -/
theorem candidate_iff (pre post : List TokenBalance) (m : List Char) :
    m ∈ candidateMints pre post ↔
      (∃ b ∈ post, b.mint = some m) ∧
      m ∉ pre.filterMap (fun b => b.mint) ∧
      containsSeq m onesStr = false :=
  mem_candidateMints pre post m

/-- Witness for the amended C2 at a concrete entry. -/
theorem candidate_iff_witness :
    ['x'] ∈ candidateMints [] [{ mint := some ['x'] }] :=
  (candidate_iff [] [{ mint := some ['x'] }] ['x']).mpr
    ⟨⟨{ mint := some ['x'] }, by decide, rfl⟩, by decide, by decide⟩

/-- C3: the plain-create branch and the V2 branch never both hold, and
when the decoded log text contains the program address, the plain create
marker and the V2 marker, the predicate matches — through the V2 branch,
with the plain branch off. -/
theorem create_v2_branch :
    (∀ logs : List Nat,
      ¬(isCreateBranch logs = true ∧ isCreateV2Branch logs = true)) ∧
    (∀ (t : SubscribeUpdateTransaction) (logs : List Nat),
      transactionLogs t = some logs → utf8Valid logs = true →
      containsSeq logs (asciiBytes pumpFunProgramId) = true →
      containsSeq logs (asciiBytes "Instruction: Create") = true →
      containsSeq logs (asciiBytes "Instruction: CreateV2") = true →
      is_pump_fun_create t = true ∧ isCreateV2Branch logs = true ∧
        isCreateBranch logs = false) := by
  have hsub : containsSeq (asciiBytes "Instruction: CreateV2")
      (asciiBytes "CreateV2") = true := by decide
  have hkey : ∀ logs : List Nat,
      containsSeq logs (asciiBytes "Instruction: CreateV2") = true →
      containsSeq logs (asciiBytes "CreateV2") = true :=
    fun logs h => containsSeq_trans h hsub
  constructor
  · rintro logs ⟨h1, h2⟩
    have hcv2 := hkey logs h2
    simp only [isCreateBranch, Bool.and_eq_true, Bool.not_eq_true'] at h1
    rw [h1.2] at hcv2
    exact Bool.false_ne_true hcv2
  · intro t logs hlogs hvalid hpf hcr hv2
    obtain ⟨tx, meta, htx, hmeta, hlm⟩ := transactionLogs_inv t logs hlogs
    have hcv2 := hkey logs hv2
    refine ⟨?_, hv2, by simp [isCreateBranch, hcv2]⟩
    simp only [is_pump_fun_create, htx, hmeta, hlm]
    rw [if_pos hvalid]
    simp [hasPumpFun, hpf, isCreateV2Branch, hv2]

/-- Witness for C3 at a concrete update whose logs carry both markers. -/
theorem create_v2_branch_witness :
    is_pump_fun_create tC3 = true ∧ isCreateV2Branch logsCreateV2 = true ∧
      isCreateBranch logsCreateV2 = false :=
  create_v2_branch.2 tC3 logsCreateV2 (by decide) (by decide) (by decide)
    (by decide) (by decide)

/-- C5: the published signature is the base-58 rendering of the direct
signature field when that field is non-empty, otherwise of the first
embedded signature; when the direct field is empty and no embedded
signature exists, no event is produced. -/
theorem signature_extraction (u : SubscribeUpdate)
    (t : SubscribeUpdateTransaction) (tx : SubscribeUpdateTransactionInfo)
    (hu : u.update_oneof = some (UpdateOneof.transaction t))
    (ht : t.transaction = some tx) :
    (∀ ev, process_update u = some ev →
      (tx.signature ≠ [] ∧ ev.signature = bs58Encode tx.signature) ∨
      (tx.signature = [] ∧ ∃ txd s0 ss, tx.transaction = some txd ∧
        txd.signatures = s0 :: ss ∧ ev.signature = bs58Encode s0)) ∧
    (tx.signature = [] →
      (∀ txd, tx.transaction = some txd → txd.signatures = []) →
      process_update u = none) := by
  constructor
  · intro ev hev
    obtain ⟨t', tx', hu', hcreate, ht', hsig, _, _, _⟩ :=
      processUpdate_inv u ev hev
    have het : t = t' := by simpa using hu.symm.trans hu'
    subst het
    have hetx : tx = tx' := by simpa using ht.symm.trans ht'
    subst hetx
    exact extractSignature_inv tx ev.signature hsig
  · intro hsig hnone
    apply processUpdate_none_of_sig_none u t tx hu ht
    rcases htxd : tx.transaction with _ | txd
    · simp [extractSignature, hsig, htxd]
    · have hs := hnone txd htxd
      simp [extractSignature, hsig, htxd, hs]

/-- Witness for C5: a concrete classified update with a non-empty direct
signature field. -/
theorem signature_extraction_witness :
    ∃ ev, process_update uC5 = some ev ∧
      txC5.signature ≠ [] ∧ ev.signature = bs58Encode txC5.signature := by
  have h := (signature_extraction uC5 tC5 txC5 rfl rfl).1
  rcases hev : process_update uC5 with _ | ev
  · exact absurd hev (by decide)
  · rcases h ev hev with hcase | hcase
    · exact ⟨ev, rfl, hcase⟩
    · exact absurd hcase.1 (by decide)

/-- C7: when the logs match but the post-balance list carries no mint
absent from the pre-balance mints, the classifier produces no event. -/
theorem no_new_mint_no_event (u : SubscribeUpdate)
    (t : SubscribeUpdateTransaction) (tx : SubscribeUpdateTransactionInfo)
    (meta : TransactionStatusMeta)
    (hu : u.update_oneof = some (UpdateOneof.transaction t))
    (ht : t.transaction = some tx) (hmeta : tx.meta = some meta)
    (hcreate : is_pump_fun_create t = true)
    (hsub : ∀ m, m ∈ meta.post_token_balances.filterMap (fun b => b.mint) →
      m ∈ meta.pre_token_balances.filterMap (fun b => b.mint)) :
    process_update u = none := by
  apply processUpdate_none_of_mint_none u t tx hu ht
  simp only [extractMint, hmeta]
  rw [selectMint_eq_none_iff, candidateMints]
  apply List.filterMap_eq_nil_iff.mpr
  intro b hb
  rcases hbm : b.mint with _ | m
  · simp [candKeep, hbm]
  · have hmem : m ∈ meta.post_token_balances.filterMap (fun b => b.mint) :=
      List.mem_filterMap.mpr ⟨b, hb, by rw [hbm]⟩
    have hcont : (meta.pre_token_balances.filterMap
        (fun b => b.mint)).contains m = true :=
      List.elem_iff.mpr (hsub m hmem)
    have hcond : (!(meta.pre_token_balances.filterMap
        (fun b => b.mint)).contains m && !containsSeq m onesStr) = false := by
      rw [hcont]
      rfl
    simp only [candKeep, hbm]
    rw [hcond]
    exact if_neg (by simp)

/-- Witness for C7: a matching update whose only post mint already occurs
pre-execution yields no event. -/
theorem no_new_mint_no_event_witness : process_update uC7 = none :=
  no_new_mint_no_event uC7 tC7 txC7 _ rfl rfl rfl (by decide) (by decide)

/-- C8: an update whose decoded log text lacks the program address string
is never classified, regardless of markers; and an update whose log bytes
are not valid UTF-8 is never classified. -/
theorem non_matching_logs_no_event :
    (∀ (u : SubscribeUpdate) (t : SubscribeUpdateTransaction)
      (logs : List Nat),
      u.update_oneof = some (UpdateOneof.transaction t) →
      transactionLogs t = some logs →
      containsSeq logs (asciiBytes pumpFunProgramId) = false →
      process_update u = none) ∧
    (∀ (u : SubscribeUpdate) (t : SubscribeUpdateTransaction)
      (logs : List Nat),
      u.update_oneof = some (UpdateOneof.transaction t) →
      transactionLogs t = some logs →
      utf8Valid logs = false →
      process_update u = none) := by
  constructor
  · intro u t logs hu hlogs hpf
    obtain ⟨tx, meta, htx, hmeta, hlm⟩ := transactionLogs_inv t logs hlogs
    apply processUpdate_none_of_not_create u t hu
    simp only [is_pump_fun_create, htx, hmeta, hlm]
    by_cases hv : utf8Valid logs = true
    · rw [if_pos hv]
      simp [hasPumpFun, hpf]
    · rw [if_neg hv]
  · intro u t logs hu hlogs hv
    obtain ⟨tx, meta, htx, hmeta, hlm⟩ := transactionLogs_inv t logs hlogs
    apply processUpdate_none_of_not_create u t hu
    simp only [is_pump_fun_create, htx, hmeta, hlm]
    rw [if_neg (by simp [hv])]

/-- Witness for C8: one concrete update lacking the program address and
one with invalid UTF-8 log bytes, neither classified. -/
theorem non_matching_logs_no_event_witness :
    process_update uC8a = none ∧ process_update uC8b = none :=
  ⟨non_matching_logs_no_event.1 uC8a tC8a
      (asciiBytes "Program log: Instruction: Create") rfl rfl (by decide),
   non_matching_logs_no_event.2 uC8b tC8b [0xFF, 0xFE] rfl rfl (by decide)⟩

/-- C6 counterexample: with an empty direct signature, an empty first
embedded signature, an empty first account key and the non-base-58 mint
string "0", the classifier still builds an event whose `signature` and
`creator_address` are empty and whose `mint_address` is not valid
base-58 — refuting the claimed non-zero-length valid-base-58 invariant. -/
theorem create_event_invariants_cex :
    ∃ ev, process_update uC6 = some ev ∧ ev.signature = [] ∧
      ev.creator_address = [] ∧ isB58 ev.mint_address = false :=
  ⟨{ signature := [], mint_address := ['0'], creator_address := [],
     slot := 42 }, by decide, rfl, rfl, by decide⟩

/-- C6 amended: every constructed event is fully filled from successful
extraction of all three fields plus the slot; `signature` and
`creator_address` are base-58 renderings of input byte strings — hence
always valid base-58 text, empty exactly when those byte strings are
empty — while `mint_address` is copied verbatim from a candidate
post-balance mint, so it is valid non-zero base-58 exactly when the
input mint string is. -/
theorem create_event_invariants (u : SubscribeUpdate)
    (ev : CreateTransaction) (h : process_update u = some ev) :
    isB58 ev.signature = true ∧ isB58 ev.creator_address = true ∧
    (∃ bs, ev.signature = bs58Encode bs ∧ (ev.signature = [] ↔ bs = [])) ∧
    (∃ ks, ev.creator_address = bs58Encode ks ∧
      (ev.creator_address = [] ↔ ks = [])) ∧
    ∃ t tx meta, u.update_oneof = some (UpdateOneof.transaction t) ∧
      t.transaction = some tx ∧ is_pump_fun_create t = true ∧
      extractSignature tx = some ev.signature ∧
      extractCreator tx = some ev.creator_address ∧
      extractMint tx = some ev.mint_address ∧ ev.slot = t.slot ∧
      tx.meta = some meta ∧
      ev.mint_address ∈ candidateMints meta.pre_token_balances
        meta.post_token_balances := by
  obtain ⟨t, tx, hu, hcreate, ht, hsig, hcr, hm, hslot⟩ :=
    processUpdate_inv u ev h
  have hsigenc : ∃ bs, ev.signature = bs58Encode bs := by
    rcases extractSignature_inv tx ev.signature hsig with
      ⟨_, he⟩ | ⟨_, _, s0, _, _, _, he⟩
    · exact ⟨tx.signature, he⟩
    · exact ⟨s0, he⟩
  have hcrenc : ∃ ks, ev.creator_address = bs58Encode ks := by
    obtain ⟨txd, msg, k0, ks, _, _, _, he⟩ :=
      extractCreator_inv tx ev.creator_address hcr
    exact ⟨k0, he⟩
  obtain ⟨meta, hmeta, hsel⟩ := extractMint_inv tx ev.mint_address hm
  obtain ⟨bs, hbs⟩ := hsigenc
  obtain ⟨ks, hks⟩ := hcrenc
  exact ⟨by rw [hbs]; exact bs58Encode_valid bs,
    by rw [hks]; exact bs58Encode_valid ks,
    ⟨bs, hbs, by rw [hbs]; exact bs58Encode_eq_nil_iff bs⟩,
    ⟨ks, hks, by rw [hks]; exact bs58Encode_eq_nil_iff ks⟩,
    t, tx, meta, hu, ht, hcreate, hsig, hcr, hm, hslot, hmeta,
    selectMint_some_mem hsel⟩

/-- Witness for the amended C6 at a concrete well-formed update. -/
theorem create_event_invariants_witness :
    ∃ ev, process_update uC5 = some ev ∧ isB58 ev.signature = true ∧
      isB58 ev.creator_address = true := by
  rcases hev : process_update uC5 with _ | ev
  · exact absurd hev (by decide)
  · obtain ⟨h1, h2, _⟩ := create_event_invariants uC5 ev hev
    exact ⟨ev, rfl, h1, h2⟩

/-- C10: the classifier is total: every update yields `none` or `some`; a
`some` result arises only with the transaction variant present, the
envelope present and all three field extractions successful; and the
predicate returns `true` only when the envelope, its metadata and its log
bytes are all present and the bytes are valid UTF-8.  Every partial
access in the source is behind one of these guards. -/
theorem classifier_total :
    (∀ u : SubscribeUpdate, process_update u = none ∨
      ∃ ev, process_update u = some ev) ∧
    (∀ (u : SubscribeUpdate) (ev : CreateTransaction),
      process_update u = some ev →
      ∃ t tx, u.update_oneof = some (UpdateOneof.transaction t) ∧
        t.transaction = some tx ∧ extractSignature tx = some ev.signature ∧
        extractCreator tx = some ev.creator_address ∧
        extractMint tx = some ev.mint_address) ∧
    (∀ t : SubscribeUpdateTransaction, is_pump_fun_create t = true →
      ∃ tx meta logs, t.transaction = some tx ∧ tx.meta = some meta ∧
        meta.log_messages = some logs ∧ utf8Valid logs = true) := by
  refine ⟨?_, ?_, ?_⟩
  · intro u
    rcases h : process_update u with _ | ev
    · exact Or.inl rfl
    · exact Or.inr ⟨ev, rfl⟩
  · intro u ev h
    obtain ⟨t, tx, hu, _, ht, hs, hc, hm, _⟩ := processUpdate_inv u ev h
    exact ⟨t, tx, hu, ht, hs, hc, hm⟩
  · intro t h
    rcases htx : t.transaction with _ | tx
    · simp [is_pump_fun_create, htx] at h
    · rcases hmeta : tx.meta with _ | meta
      · simp [is_pump_fun_create, htx, hmeta] at h
      · rcases hlm : meta.log_messages with _ | logs
        · simp [is_pump_fun_create, htx, hmeta, hlm] at h
        · by_cases hv : utf8Valid logs = true
          · exact ⟨tx, meta, logs, rfl, hmeta, hlm, hv⟩
          · simp [is_pump_fun_create, htx, hmeta, hlm, hv] at h

/-- Witness for C10 at a concrete matching update. -/
theorem classifier_total_witness :
    ∃ tx meta logs, tC3.transaction = some tx ∧ tx.meta = some meta ∧
      meta.log_messages = some logs ∧ utf8Valid logs = true :=
  classifier_total.2.2 tC3 (by decide)

theorem hexDigit_ne_newline (n : Nat) : hexDigit n ≠ '\n' := by
  rw [hexDigit]
  rcases Nat.lt_or_ge n 16 with h | h
  · exact (by decide :
      ∀ j, j < 16 → "0123456789abcdef".toList.getD j '0' ≠ '\n') n h
  · rw [List.getD_eq_default]
    · decide
    · have hl : ("0123456789abcdef".toList).length = 16 := by decide
      rw [hl]
      exact h

theorem jsonEscapeChar_ne_newline (x c : Char) (h : c ∈ jsonEscapeChar x) :
    c ≠ '\n' := by
  rw [jsonEscapeChar] at h
  split_ifs at h with h1 h2 h3 h4 h5 h6 h7 h8
  all_goals
    simp only [List.mem_cons, List.mem_singleton, List.not_mem_nil,
      or_false] at h
  all_goals
    first
    | (rcases h with rfl | rfl <;> decide)
    | (rcases h with rfl | rfl | rfl | rfl | rfl | rfl <;>
        first | decide | exact hexDigit_ne_newline _)
    | (subst h; intro hnl; exact absurd (by rw [hnl]; decide) h8)

theorem jsonString_ne_newline (s : List Char) (c : Char)
    (h : c ∈ jsonString s) : c ≠ '\n' := by
  rw [jsonString] at h
  rcases List.mem_cons.mp h with rfl | h
  · decide
  rcases List.mem_append.mp h with h | h
  · obtain ⟨x, _, hx⟩ := List.mem_flatMap.mp h
    exact jsonEscapeChar_ne_newline x c hx
  · simp only [List.mem_singleton] at h
    subst h
    decide

theorem decDigit_ne_newline (i : Nat) : decDigit (i % 10) ≠ '\n' := by
  have h10 : i % 10 < 10 := Nat.mod_lt _ (by norm_num)
  exact (by decide : ∀ j, j < 10 → decDigit j ≠ '\n') _ h10

theorem natDecGo_ne_newline : ∀ fuel n : Nat, ∀ c ∈ natDecGo fuel n,
    c ≠ '\n' := by
  intro fuel
  induction fuel with
  | zero => intro n c hc; cases n <;> simp [natDecGo] at hc
  | succ f ih =>
    intro n c hc
    cases n with
    | zero => simp [natDecGo] at hc
    | succ m =>
      simp only [natDecGo, List.mem_append, List.mem_singleton] at hc
      rcases hc with h | h
      · exact ih _ _ h
      · rw [h]; exact decDigit_ne_newline _

theorem natDecimal_ne_newline (n : Nat) (c : Char) (h : c ∈ natDecimal n) :
    c ≠ '\n' := by
  rw [natDecimal] at h
  split_ifs at h
  · simp only [List.mem_singleton] at h
    subst h
    decide
  · exact natDecGo_ne_newline n n c h

theorem containsSeq_append_left {α : Type} [BEq α] [LawfulBEq α]
    (a b pat : List α) (h : containsSeq a pat = true) :
    containsSeq (a ++ b) pat = true := by
  rw [containsSeq_correct] at h ⊢
  exact h.trans (List.prefix_append a b).isInfix

theorem containsSeq_append_right {α : Type} [BEq α] [LawfulBEq α]
    (a b pat : List α) (h : containsSeq b pat = true) :
    containsSeq (a ++ b) pat = true := by
  rw [containsSeq_correct] at h ⊢
  exact h.trans (List.suffix_append a b).isInfix

/-- C9: every emitted frame is exactly `"data: "` followed by the JSON
record followed by two newlines; the JSON carries exactly the four field
names in declaration order with the slot as a bare decimal number, and —
because escaping removes every control character — contains no newline,
so the two trailing newlines uniquely delimit the frame; the response
carries the three fixed headers. -/
theorem sse_frame_format :
    (∀ ev : CreateTransaction, sseFrame ev =
      "data: ".toList ++ serializeCreateTransaction ev ++ ['\n', '\n']) ∧
    (∀ ev : CreateTransaction, ∀ c ∈ serializeCreateTransaction ev,
      c ≠ '\n') ∧
    (∀ ev : CreateTransaction,
      containsSeq (serializeCreateTransaction ev)
        "\"signature\":".toList = true ∧
      containsSeq (serializeCreateTransaction ev)
        "\"mint_address\":".toList = true ∧
      containsSeq (serializeCreateTransaction ev)
        "\"creator_address\":".toList = true ∧
      ∃ p, serializeCreateTransaction ev =
        p ++ ",\"slot\":".toList ++ natDecimal ev.slot ++ "\x7d".toList) ∧
    sseHeaders.lookup "Content-Type" = some "text/event-stream" ∧
    sseHeaders.lookup "Cache-Control" = some "no-cache" ∧
    sseHeaders.lookup "Connection" = some "keep-alive" := by
  refine ⟨fun ev => rfl, ?_, ?_, by decide, by decide, by decide⟩
  · intro ev c hc
    rw [serializeCreateTransaction] at hc
    rcases List.mem_append.mp hc with hc | h
    · rcases List.mem_append.mp hc with hc | h
      · rcases List.mem_append.mp hc with hc | h
        · rcases List.mem_append.mp hc with hc | h
          · rcases List.mem_append.mp hc with hc | h
            · rcases List.mem_append.mp hc with hc | h
              · rcases List.mem_append.mp hc with hc | h
                · rcases List.mem_append.mp hc with hc | h
                  · exact (by decide :
                      ∀ x ∈ "\x7b\"signature\":".toList, x ≠ '\n') c hc
                  · exact jsonString_ne_newline ev.signature c h
                · exact (by decide :
                    ∀ x ∈ ",\"mint_address\":".toList, x ≠ '\n') c h
              · exact jsonString_ne_newline ev.mint_address c h
            · exact (by decide :
                ∀ x ∈ ",\"creator_address\":".toList, x ≠ '\n') c h
          · exact jsonString_ne_newline ev.creator_address c h
        · exact (by decide : ∀ x ∈ ",\"slot\":".toList, x ≠ '\n') c h
      · exact natDecimal_ne_newline ev.slot c h
    · exact (by decide : ∀ x ∈ "\x7d".toList, x ≠ '\n') c h
  · intro ev
    refine ⟨?_, ?_, ?_, ⟨_, rfl⟩⟩
    · rw [serializeCreateTransaction]
      apply containsSeq_append_left
      apply containsSeq_append_left
      apply containsSeq_append_left
      apply containsSeq_append_left
      apply containsSeq_append_left
      apply containsSeq_append_left
      apply containsSeq_append_left
      apply containsSeq_append_left
      decide
    · rw [serializeCreateTransaction]
      apply containsSeq_append_left
      apply containsSeq_append_left
      apply containsSeq_append_left
      apply containsSeq_append_left
      apply containsSeq_append_left
      apply containsSeq_append_left
      apply containsSeq_append_right
      decide
    · rw [serializeCreateTransaction]
      apply containsSeq_append_left
      apply containsSeq_append_left
      apply containsSeq_append_left
      apply containsSeq_append_left
      apply containsSeq_append_right
      decide

/-- Witness for C9: the serialized record of a concrete event contains a
quote character, and that character is not a newline. -/
theorem sse_frame_format_witness :
    ('"' ∈ serializeCreateTransaction evC9) ∧ '"' ≠ '\n' :=
  ⟨by decide, sse_frame_format.2.1 evC9 '"' (by decide)⟩

end PumpGeyser
